import Mathlib

/-!
Shallow embedding of the procd service/instance supervision core
(`service.c`, `instance.h`) together with the collaborator semantics it
relies on: the libubox `vlist` diffing collection (`vlist_update`,
`vlist_add` with `keep_old`, `vlist_flush`, `vlist_flush_all`) and the
uloop reactor's process/timer delivery discipline.

State is passed explicitly; each lifecycle operation additionally returns
the list of observable `Action`s it performed (which lifecycle calls were
made and which signals/reactor operations were issued), so that the
spec's statements about "instance X received start/stop/update/free" can
be phrased as trace membership.
-/

namespace Procd

/-- Serialized configuration payload: the padded bytes of a `blob_attr`.
`blob_pad_len` is its length; `memcmp` compares the bytes. -/
abbrev Blob := List Nat

def blob_pad_len (b : Blob) : Nat := b.length

/-- `memcmp(a, b, n) == 0`: the first `n` bytes coincide. -/
def memcmp_zero (a b : Blob) (n : Nat) : Bool := a.take n == b.take n

/-- `struct service_instance` (instance.h): vlist node (carrying its vlist
version), name, restart flag, config blob, uloop process handle (pending
flag and pid) and uloop timeout handle (pending flag).  The callbacks
`proc.cb` and `timeout.cb` are fixed by `init_instance` to `instance_exit`
and `instance_timeout` and are therefore not part of the state. -/
structure Instance where
  name : String
  node_version : Int
  restart : Bool
  config : Blob
  proc_pending : Bool
  proc_pid : Int
  timer_pending : Bool
  deriving DecidableEq, Repr

/-- Observable events: invocations of the lifecycle operations (recorded
with their arguments at the call site) and the signals/reactor calls the
code issues. -/
inductive Action where
  | startCall (name : String)
  | stopCall (name : String) (restart : Bool)
  | updateCall (name : String)
  | freeCall (name : String)
  | sigterm (pid : Int)
  | sigkill (pid : Int)
  | procDelete (name : String)
  | timerCancel (name : String)
  deriving DecidableEq, Repr

/-- `start_instance` (service.c): the whole body is `in->restart = false;`. -/
def start_instance (i : Instance) : Instance × List Action :=
  ({ i with restart := false }, [.startCall i.name])

/-- `instance_exit` (service.c): `uloop_timeout_cancel(&in->timeout)`
(clears the timer's pending flag), then `if (in->restart)
start_instance(in)`.  The exit status `ret` is not inspected. -/
def instance_exit (i : Instance) (ret : Int) : Instance × List Action :=
  let i1 : Instance := { i with timer_pending := false }
  if i1.restart then
    let r := start_instance i1
    (r.1, .timerCancel i.name :: r.2)
  else
    (i1, [.timerCancel i.name])

/-- `instance_timeout` (service.c): `kill(in->proc.pid, SIGKILL)`,
`uloop_process_delete(&in->proc)` (clears the process pending flag and
detaches the watch), then `in->proc.cb(&in->proc, -1)` where `proc.cb`
is `instance_exit` (installed by `init_instance`). -/
def instance_timeout (i : Instance) : Instance × List Action :=
  let i1 : Instance := { i with proc_pending := false }
  let r := instance_exit i1 (-1)
  (r.1, .sigkill i.proc_pid :: .procDelete i.name :: r.2)

/-- `stop_instance` (service.c): `if (!in->proc.pending) return;` then
`kill(in->proc.pid, SIGTERM)`.  The body reads but never writes the
instance state: the `restart` argument is ignored and no timer is armed. -/
def stop_instance (i : Instance) (restart : Bool) : Instance × List Action :=
  if !i.proc_pending then
    (i, [.stopCall i.name restart])
  else
    (i, [.stopCall i.name restart, .sigterm i.proc_pid])

/-- `instance_config_changed` (service.c): compares `blob_pad_len` of the
two config blobs and then `memcmp`s them over that length. -/
def instance_config_changed (i i_new : Instance) : Bool :=
  let len := blob_pad_len i.config
  if len != blob_pad_len i_new.config then true
  else if !(memcmp_zero i.config i_new.config len) then true
  else false

/-- `update_instance` (service.c): computes `instance_config_changed`,
unconditionally swaps in the new config pointer, then either returns
`false` (unchanged) or calls `stop_instance(in, true)` and returns
`true`. -/
def update_instance (i i_new : Instance) : (Instance × Bool) × List Action :=
  let changed := instance_config_changed i i_new
  let i1 : Instance := { i with config := i_new.config }
  if !changed then
    ((i1, false), [.updateCall i.name])
  else
    let r := stop_instance i1 true
    ((r.1, true), .updateCall i.name :: r.2)

/-- `free_instance` (service.c): `uloop_process_delete`,
`uloop_timeout_cancel`, `free(in)` — the instance leaves the model; only
the free event is recorded. -/
def free_instance (i : Instance) : List Action :=
  [.freeCall i.name]

/-- `service_instance_update` (service.c): the vlist update callback.
`(new, old)` both present: `update_instance(old, new)` then
`free_instance(new)`; only old: `stop_instance(old, false)` then
`free_instance(old)`; only new: `start_instance(new)`.  Returns the
surviving node (the one the callback mutated in place inside the tree),
if any. -/
def service_instance_update (node_new node_old : Option Instance) :
    Option Instance × List Action :=
  match node_old, node_new with
  | some in_o, some in_n =>
      let r := update_instance in_o in_n
      (some r.1.1, r.2 ++ free_instance in_n)
  | some in_o, none =>
      let r := stop_instance in_o false
      (none, r.2 ++ free_instance r.1)
  | none, some in_n =>
      let r := start_instance in_n
      (some r.1, r.2)
  | none, none => (none, [])

/-- `struct vlist_tree` for the per-service instance collection: tree
version, the `keep_old` flag (set by `service_alloc`; `no_delete` is never
set and is modelled as false), and the tracked nodes.  The avl tree is
modelled as the list of its elements; the update callback is
`service_instance_update`, as installed by `vlist_init` in
`service_alloc`. -/
structure VlistTree where
  version : Int
  keep_old : Bool
  nodes : List Instance
  deriving DecidableEq, Repr

def find_node (l : List Instance) (key : String) : Option Instance :=
  l.find? (fun i => i.name == key)

def replace_node (l : List Instance) (key : String) (j : Instance) :
    List Instance :=
  l.map (fun i => if i.name == key then j else i)

/-- libubox `vlist_add`: sets the node's key and version to the tree
version; if a node with this key exists and `keep_old` is set, bumps the
old node's version and runs the update callback on `(new, old)` without
inserting the new node (the callback mutates the old node in place and
frees the new one); otherwise inserts the new node and runs the callback
(`(new, old)` after replacing, or `(new, NULL)` for a fresh key). -/
def vlist_add (T : VlistTree) (node : Instance) (key : String) :
    VlistTree × List Action :=
  let node1 : Instance := { node with name := key, node_version := T.version }
  match find_node T.nodes key with
  | some old =>
      if T.keep_old then
        let old1 : Instance := { old with node_version := T.version }
        let r := service_instance_update (some node1) (some old1)
        ({ T with nodes := replace_node T.nodes key (r.1.getD old1) }, r.2)
      else
        -- dead branch in this program: service_alloc sets keep_old
        let r := service_instance_update (some node1) (some old)
        ({ T with nodes :=
            T.nodes.filter (fun i => i.name != key) ++ [node1] }, r.2)
  | none =>
      let r := service_instance_update (some node1) none
      ({ T with nodes := T.nodes ++ [r.1.getD node1] }, r.2)

/-- libubox `vlist_update`: `tree->version++`. -/
def vlist_update (T : VlistTree) : VlistTree :=
  { T with version := T.version + 1 }

/-- A node survives `vlist_flush` iff
`(node->version == tree->version || node->version == -1) && tree->version != -1`. -/
def vlist_keep (tv nv : Int) : Bool :=
  (nv == tv || nv == -1) && !(tv == -1)

/-- libubox `vlist_flush`: every stale node is `vlist_delete`d — removed
from the tree and handed to the update callback as `(NULL, old)`. -/
def vlist_flush (T : VlistTree) : VlistTree × List Action :=
  let stale := T.nodes.filter (fun i => !(vlist_keep T.version i.node_version))
  ({ T with nodes := T.nodes.filter (fun i => vlist_keep T.version i.node_version) },
   (stale.map (fun i => (service_instance_update none (some i)).2)).flatten)

/-- libubox `vlist_flush_all`: sets the tree version to -1 and flushes,
so every node is deleted. -/
def vlist_flush_all (T : VlistTree) : VlistTree × List Action :=
  vlist_flush { T with version := -1 }

/-- A submitted blobmsg attribute from the `instances` table: its name,
whether its blobmsg type is `BLOBMSG_TYPE_TABLE`, and its serialized
bytes (which `init_instance` installs as the instance config). -/
structure Attr where
  name : String
  isTable : Bool
  blob : Blob
  deriving DecidableEq, Repr

/-- `service_instance_add` (service.c): skips non-table attributes,
otherwise `calloc`s a zeroed instance, `init_instance`s it with the
attribute as config, and `vlist_add`s it under the attribute name. -/
def service_instance_add (T : VlistTree) (attr : Attr) :
    VlistTree × List Action :=
  if !attr.isTable then (T, [])
  else
    let i : Instance :=
      { name := "", node_version := 0, restart := false, config := attr.blob,
        proc_pending := false, proc_pid := 0, timer_pending := false }
    vlist_add T i attr.name

/-- `struct service` (service.c): name, owned config blob, instance
vlist. -/
structure Service where
  name : String
  config : Blob
  instances : VlistTree
  deriving DecidableEq, Repr

/-- `service_alloc` (service.c): `calloc`ed service (name/config zeroed),
`vlist_init(&s->instances, avl_strcmp, service_instance_update)` (which
sets the tree version to 1), then `s->instances.keep_old = true`.  The
`name` parameter is unused by the source. -/
def service_alloc (_name : String) : Service :=
  { name := "", config := [],
    instances := { version := 1, keep_old := true, nodes := [] } }

/-- The `blobmsg_for_each_attr` loop body of `service_update`: add each
submitted attribute in order, concatenating traces. -/
def add_all (T : VlistTree) (attrs : List Attr) : VlistTree × List Action :=
  match attrs with
  | [] => (T, [])
  | a :: rest =>
      let r1 := service_instance_add T a
      let r2 := add_all r1.1 rest
      (r2.1, r1.2 ++ r2.2)

/-- `service_update` (service.c): installs the parsed name and the new
config blob; if the parsed attributes contain an `instances` table,
`vlist_update`s the tree, `service_instance_add`s each entry, and
`vlist_flush`es; finally frees the old config (not modelled) and returns
0. -/
def service_update (s : Service) (config : Blob) (tb_name : String)
    (tb_instances : Option (List Attr)) : Service × List Action :=
  let s1 : Service := { s with name := tb_name, config := config }
  match tb_instances with
  | none => (s1, [])
  | some attrs =>
      let T0 := vlist_update s1.instances
      let r1 := add_all T0 attrs
      let r2 := vlist_flush r1.1
      ({ s1 with instances := r2.1 }, r1.2 ++ r2.2)

/-- ubus status codes used by service.c. -/
def UBUS_STATUS_INVALID_ARGUMENT : Nat := 2
def UBUS_STATUS_NOT_FOUND : Nat := 4

/-- A parsed `set` request: the fields of `service_attrs`
(name/script/instances) plus the full serialized message (which becomes
the service config blob after `blob_memdup`). -/
structure SetMsg where
  name : Option String
  script : Option String
  instances : Option (List Attr)
  blob : Blob
  deriving DecidableEq, Repr

/-- A parsed `delete` request: the optional `name` field. -/
structure DelMsg where
  name : Option String
  deriving DecidableEq, Repr

def find_service (reg : List Service) (n : String) : Option Service :=
  reg.find? (fun s => s.name == n)

/-- `avl_insert` into the name-ordered registry (keys compared by
`avl_strcmp`). -/
def avl_insert (reg : List Service) (s : Service) : List Service :=
  match reg with
  | [] => [s]
  | x :: xs => if s.name < x.name then s :: x :: xs else x :: avl_insert xs s

/-- In-place mutation of the found service by `service_update` (the C
code holds it by pointer inside the avl tree). -/
def replace_service (reg : List Service) (n : String) (s' : Service) :
    List Service :=
  reg.map (fun x => if x.name == n then s' else x)

/-- `service_handle_set` (service.c): `blob_memdup` the message (modelled
as always succeeding), parse it; missing `name` yields
`UBUS_STATUS_INVALID_ARGUMENT` and leaves the registry untouched; an
existing service is updated in place; otherwise a fresh service is
allocated, updated (`service_update` always returns 0 here) and inserted. -/
def service_handle_set (reg : List Service) (msg : SetMsg) :
    (List Service × Nat) × List Action :=
  match msg.name with
  | none => ((reg, UBUS_STATUS_INVALID_ARGUMENT), [])
  | some n =>
      match find_service reg n with
      | some s =>
          let r := service_update s msg.blob n msg.instances
          ((replace_service reg n r.1, 0), r.2)
      | none =>
          let s := service_alloc n
          let r := service_update s msg.blob n msg.instances
          ((avl_insert reg r.1, 0), r.2)

/-- `service_handle_list` (service.c): one (empty) table per service, in
avl key order, keyed by service name — modelled as the name sequence. -/
def service_handle_list (reg : List Service) : List String :=
  reg.map (·.name)

/-- `service_delete` (service.c): `vlist_flush_all(&s->instances)` (stops
and frees every instance), `avl_delete(&services, &s->avl)`, frees the
config and the service. -/
def service_delete (reg : List Service) (s : Service) :
    List Service × List Action :=
  (reg.filter (fun x => x.name != s.name), (vlist_flush_all s.instances).2)

/-- The `avl_for_each_element_safe` loop of `service_handle_delete` with
no name: `service_delete` every element of the registry in turn. -/
def del_all (reg : List Service) (todo : List Service) :
    List Service × List Action :=
  match todo with
  | [] => (reg, [])
  | s :: rest =>
      let r1 := service_delete reg s
      let r2 := del_all r1.1 rest
      (r2.1, r1.2 ++ r2.2)

/-- `service_handle_delete` (service.c): with no `name` field, deletes
every service and returns 0; with a name, returns
`UBUS_STATUS_NOT_FOUND` when absent, otherwise deletes that service and
returns 0. -/
def service_handle_delete (reg : List Service) (msg : DelMsg) :
    (List Service × Nat) × List Action :=
  match msg.name with
  | none =>
      let r := del_all reg reg
      ((r.1, 0), r.2)
  | some n =>
      match find_service reg n with
      | none => ((reg, UBUS_STATUS_NOT_FOUND), [])
      | some s =>
          let r := service_delete reg s
          ((r.1, 0), r.2)

/-- uloop delivery of a real child-exit notification: delivered only for
a watched process (`proc.pending`); uloop clears the pending flag before
invoking `proc.cb` (= `instance_exit`). -/
def deliver_exit (i : Instance) (ret : Int) : Instance × List Action :=
  if i.proc_pending then
    instance_exit { i with proc_pending := false } ret
  else (i, [])

/-- uloop delivery of a timer fire: delivered only for an armed timer
(`timeout.pending`); uloop clears the pending flag before invoking
`timeout.cb` (= `instance_timeout`). -/
def deliver_timeout (i : Instance) : Instance × List Action :=
  if i.timer_pending then
    instance_timeout { i with timer_pending := false }
  else (i, [])

/-- Replace the instance named `inm` of the service named `sn` by `j`
(in-place mutation of a tracked instance by an event handler). -/
def set_inst (reg : List Service) (sn inm : String) (j : Instance) :
    List Service :=
  reg.map (fun s =>
    if s.name == sn then
      { s with instances :=
          { s.instances with nodes :=
              s.instances.nodes.map (fun i => if i.name == inm then j else i) } }
    else s)

/-- Reachable registry states: the empty initial registry (avl_init in
`procd_init_service`), closed under the ubus handlers and under delivery
of process-exit and timer events to any tracked instance. -/
inductive Reach : List Service → Prop where
  | init : Reach []
  | rset (reg : List Service) (msg : SetMsg) :
      Reach reg → Reach (service_handle_set reg msg).1.1
  | rdel (reg : List Service) (msg : DelMsg) :
      Reach reg → Reach (service_handle_delete reg msg).1.1
  | rexit (reg : List Service) (s : Service) (i : Instance) (ret : Int) :
      Reach reg → s ∈ reg → i ∈ s.instances.nodes →
      Reach (set_inst reg s.name i.name (deliver_exit i ret).1)
  | rtimeout (reg : List Service) (s : Service) (i : Instance) :
      Reach reg → s ∈ reg → i ∈ s.instances.nodes →
      Reach (set_inst reg s.name i.name (deliver_timeout i).1)

/-! ## Helper lemmas -/

/-- `instance_config_changed` returns false exactly on byte-identical
config blobs (same padded length and identical bytes). -/
theorem instance_config_changed_false_iff (i j : Instance) :
    instance_config_changed i j = false ↔ i.config = j.config := by
  simp only [instance_config_changed, blob_pad_len, memcmp_zero]
  by_cases h : i.config.length = j.config.length
  · have t1 : i.config.take i.config.length = i.config := List.take_length _
    have t2 : j.config.take i.config.length = j.config := by
      rw [h]; exact List.take_length _
    have hb : (i.config.length != j.config.length) = false := by simp [bne, h]
    rw [hb]
    simp only [t1, t2]
    by_cases hc : i.config = j.config <;> simp [hc]
  · have hb : (i.config.length != j.config.length) = true := by simp [bne, h]
    rw [hb, if_pos rfl]
    constructor
    · intro hfalse; exact absurd hfalse (by decide)
    · intro heq; exact absurd (congrArg List.length heq) h

/-! ## Sample values used by witnesses -/

def sampleRun : Instance :=
  { name := "main", node_version := 1, restart := false, config := [1],
    proc_pending := true, proc_pid := 5, timer_pending := false }

def sampleStopping : Instance :=
  { name := "main", node_version := 1, restart := true, config := [1],
    proc_pending := true, proc_pid := 5, timer_pending := true }

/-! ## Claims -/

/-- C2: `update_instance` compares the old and new serialized
configuration blobs for byte-exact equality; if they differ it calls
`stop_instance` with restart=true and returns true; if they are
byte-identical it returns false and never calls stop. -/
theorem update_instance_config_spec (i i_new : Instance) :
    (i.config = i_new.config →
      (update_instance i i_new).1.2 = false ∧
      ∀ n r, Action.stopCall n r ∉ (update_instance i i_new).2) ∧
    (i.config ≠ i_new.config →
      (update_instance i i_new).1.2 = true ∧
      Action.stopCall i.name true ∈ (update_instance i i_new).2) := by
  constructor
  · intro h
    have hc : instance_config_changed i i_new = false :=
      (instance_config_changed_false_iff _ _).2 h
    simp [update_instance, hc]
  · intro h
    have hc : instance_config_changed i i_new = true := by
      cases hcc : instance_config_changed i i_new
      · exact absurd ((instance_config_changed_false_iff _ _).1 hcc) h
      · rfl
    by_cases hp : i.proc_pending <;>
      simp [update_instance, stop_instance, hc, hp]

/-- C2 witness: a byte-identical pair suppresses the restart, a differing
pair triggers it, on concrete instances. -/
theorem update_instance_config_spec_witness :
    ((update_instance sampleRun { sampleRun with proc_pid := 9 }).1.2 = false ∧
      ∀ n r, Action.stopCall n r ∉
        (update_instance sampleRun { sampleRun with proc_pid := 9 }).2) ∧
    ((update_instance sampleRun { sampleRun with config := [1, 2] }).1.2 = true ∧
      Action.stopCall "main" true ∈
        (update_instance sampleRun { sampleRun with config := [1, 2] }).2) :=
  ⟨(update_instance_config_spec sampleRun { sampleRun with proc_pid := 9 }).1
      (by decide),
   (update_instance_config_spec sampleRun { sampleRun with config := [1, 2] }).2
      (by decide)⟩

/-- C3: the claim says `stop_instance` on a running process sets the
restart flag to its argument and arms the grace timer; the code only
sends SIGTERM — on a running instance with restart=false,
`stop_instance(in, true)` leaves the whole instance state unchanged
(restart still false, timer still unarmed). -/
theorem stop_instance_code_divergence :
    stop_instance sampleRun true
      = (sampleRun, [.stopCall "main" true, .sigterm 5]) ∧
    (stop_instance sampleRun true).1.restart = false ∧
    (stop_instance sampleRun true).1.timer_pending = false := by
  decide

/-- C4: `instance_exit` cancels the pending grace timer; if the restart
flag is set it clears it and calls start again, otherwise it leaves the
instance stopped (only the timer flag changes); the exit status argument
does not affect the result. -/
theorem instance_exit_spec (i : Instance) (r1 r2 : Int) :
    (instance_exit i r1).1.timer_pending = false ∧
    (i.restart = true →
      (instance_exit i r1).1
        = { i with timer_pending := false, restart := false } ∧
      (instance_exit i r1).2 = [.timerCancel i.name, .startCall i.name]) ∧
    (i.restart = false →
      (instance_exit i r1).1 = { i with timer_pending := false } ∧
      (instance_exit i r1).2 = [.timerCancel i.name]) ∧
    instance_exit i r1 = instance_exit i r2 := by
  by_cases h : i.restart <;> simp [instance_exit, start_instance, h]

/-- C4 witness: exit handling of a concrete stopping instance with the
restart flag set, at two different exit statuses. -/
theorem instance_exit_spec_witness :
    (instance_exit sampleStopping 0).1.timer_pending = false ∧
    (sampleStopping.restart = true →
      (instance_exit sampleStopping 0).1
        = { sampleStopping with timer_pending := false, restart := false } ∧
      (instance_exit sampleStopping 0).2
        = [.timerCancel "main", .startCall "main"]) ∧
    (sampleStopping.restart = false →
      (instance_exit sampleStopping 0).1
        = { sampleStopping with timer_pending := false } ∧
      (instance_exit sampleStopping 0).2 = [.timerCancel "main"]) ∧
    instance_exit sampleStopping 0 = instance_exit sampleStopping (-7) :=
  instance_exit_spec sampleStopping 0 (-7)

/-- C5: `instance_timeout` sends SIGKILL, detaches the process watch and
hands the synthesized exit (status -1) to exactly the `instance_exit`
handling; whichever of the real exit notification or the timer fires
first, the other delivery is a no-op, both orders converge to the same
state with process and timer both retired, and the combined trace
contains exactly one start call iff a restart was requested. -/
theorem instance_timeout_exit_convergence (i : Instance) (ret : Int)
    (hp : i.proc_pending = true) (ht : i.timer_pending = true) :
    ((instance_timeout i).1
        = (instance_exit { i with proc_pending := false } (-1)).1 ∧
     (instance_timeout i).2
        = .sigkill i.proc_pid :: .procDelete i.name ::
            (instance_exit { i with proc_pending := false } (-1)).2) ∧
    ((deliver_timeout (deliver_exit i ret).1).1
        = (deliver_exit (deliver_timeout i).1 ret).1 ∧
     (deliver_timeout (deliver_exit i ret).1).2 = [] ∧
     (deliver_exit (deliver_timeout i).1 ret).2 = [] ∧
     (deliver_exit i ret).1.proc_pending = false ∧
     (deliver_exit i ret).1.timer_pending = false ∧
     (deliver_timeout i).1.proc_pending = false ∧
     (deliver_timeout i).1.timer_pending = false ∧
     ((deliver_exit i ret).2.count (.startCall i.name)
        = if i.restart then 1 else 0) ∧
     ((deliver_timeout i).2.count (.startCall i.name)
        = if i.restart then 1 else 0)) := by
  by_cases h : i.restart <;>
    simp [instance_timeout, instance_exit, start_instance, deliver_exit,
      deliver_timeout, hp, ht, h, List.count_cons]

/-- C5 witness: the exit/timeout race on a concrete stopping instance
with restart requested. -/
theorem instance_timeout_exit_convergence_witness :
    ((instance_timeout sampleStopping).1
        = (instance_exit { sampleStopping with proc_pending := false } (-1)).1 ∧
     (instance_timeout sampleStopping).2
        = .sigkill 5 :: .procDelete "main" ::
            (instance_exit { sampleStopping with proc_pending := false } (-1)).2) ∧
    ((deliver_timeout (deliver_exit sampleStopping 0).1).1
        = (deliver_exit (deliver_timeout sampleStopping).1 0).1 ∧
     (deliver_timeout (deliver_exit sampleStopping 0).1).2 = [] ∧
     (deliver_exit (deliver_timeout sampleStopping).1 0).2 = [] ∧
     (deliver_exit sampleStopping 0).1.proc_pending = false ∧
     (deliver_exit sampleStopping 0).1.timer_pending = false ∧
     (deliver_timeout sampleStopping).1.proc_pending = false ∧
     (deliver_timeout sampleStopping).1.timer_pending = false ∧
     ((deliver_exit sampleStopping 0).2.count (.startCall "main")
        = if sampleStopping.restart then 1 else 0) ∧
     ((deliver_timeout sampleStopping).2.count (.startCall "main")
        = if sampleStopping.restart then 1 else 0)) :=
  instance_timeout_exit_convergence sampleStopping 0 (by decide) (by decide)

/-- C6: a `set` request whose configuration lacks the mandatory `name`
field returns UBUS_STATUS_INVALID_ARGUMENT, leaves the registry
unchanged and performs no instance operation. -/
theorem service_handle_set_missing_name (reg : List Service) (msg : SetMsg)
    (h : msg.name = none) :
    service_handle_set reg msg = ((reg, UBUS_STATUS_INVALID_ARGUMENT), []) := by
  simp [service_handle_set, h]

/-- C6 witness: a nameless `set` against a one-service registry. -/
theorem service_handle_set_missing_name_witness :
    service_handle_set [service_alloc "x"]
        { name := none, script := none, instances := some [], blob := [3] }
      = (([service_alloc "x"], UBUS_STATUS_INVALID_ARGUMENT), []) :=
  service_handle_set_missing_name [service_alloc "x"]
    { name := none, script := none, instances := some [], blob := [3] } rfl

/-- C8: a `set` on an existing service whose configuration has no
`instances` section replaces the service's config blob (and refreshes the
name pointer) but leaves the tracked instance set completely untouched
and performs no instance operation. -/
theorem service_handle_set_no_instances (reg : List Service) (msg : SetMsg)
    (n : String) (s : Service)
    (hn : msg.name = some n)
    (hi : msg.instances = none)
    (hf : find_service reg n = some s) :
    service_handle_set reg msg
      = ((replace_service reg n { s with name := n, config := msg.blob }, 0),
          []) ∧
    ({ s with name := n, config := msg.blob } : Service).instances
      = s.instances := by
  refine ⟨?_, rfl⟩
  simp [service_handle_set, hn, hf, hi, service_update]

/-- C8 witness: a no-instances update of a concrete service keeps its
instance node untouched. -/
theorem service_handle_set_no_instances_witness :
    service_handle_set
        [{ name := "net", config := [9],
           instances := { version := 1, keep_old := true,
                          nodes := [sampleRun] } }]
        { name := some "net", script := none, instances := none, blob := [7] }
      = (([{ name := "net", config := [7],
             instances := { version := 1, keep_old := true,
                            nodes := [sampleRun] } }], 0), []) :=
  ((service_handle_set_no_instances
      [{ name := "net", config := [9],
         instances := { version := 1, keep_old := true,
                        nodes := [sampleRun] } }]
      { name := some "net", script := none, instances := none, blob := [7] }
      "net"
      { name := "net", config := [9],
        instances := { version := 1, keep_old := true, nodes := [sampleRun] } }
      rfl rfl (by decide)).1).trans (by decide)

/-! ## Deletion: helper lemmas -/

theorem vlist_keep_neg_one (nv : Int) : vlist_keep (-1) nv = false := by
  simp [vlist_keep]

/-- `vlist_flush_all` empties the tree and runs the deletion callback on
every node in order. -/
theorem vlist_flush_all_spec (T : VlistTree) :
    vlist_flush_all T
      = ({ T with version := -1, nodes := [] },
         (T.nodes.map
            (fun i => (service_instance_update none (some i)).2)).flatten) := by
  have h1 : T.nodes.filter (fun i => vlist_keep (-1) i.node_version) = [] := by
    simp [vlist_keep_neg_one]
  have h2 : T.nodes.filter (fun i => !(vlist_keep (-1) i.node_version))
      = T.nodes := by
    simp [vlist_keep_neg_one]
  simp [vlist_flush_all, vlist_flush, h1, h2]

/-- The deletion callback on one node: a stop call with restart=false,
possibly a SIGTERM, then the free. -/
theorem siu_delete_trace (i : Instance) :
    ∃ m, (service_instance_update none (some i)).2
        = .stopCall i.name false :: m ++ [.freeCall i.name] := by
  by_cases h : i.proc_pending
  · exact ⟨[.sigterm i.proc_pid],
      by simp [service_instance_update, stop_instance, free_instance, h]⟩
  · exact ⟨[],
      by simp [service_instance_update, stop_instance, free_instance, h]⟩

theorem flatten_map_decomp {α β : Type} (f : α → List β) {l : List α} {a : α}
    (ha : a ∈ l) : ∃ p q, (l.map f).flatten = p ++ (f a ++ q) := by
  obtain ⟨s, t, rfl⟩ := List.append_of_mem ha
  exact ⟨(s.map f).flatten, (t.map f).flatten, by simp⟩

/-- Every node of a flushed-away tree has a stop(false)-then-free pair in
the flush trace. -/
theorem delete_trace_shape {i : Instance} {nodes : List Instance}
    (hi : i ∈ nodes) :
    ∃ p m q,
      ((nodes.map (fun j => (service_instance_update none (some j)).2)).flatten)
        = p ++ .stopCall i.name false :: m ++ .freeCall i.name :: q := by
  obtain ⟨p, q, hpq⟩ := flatten_map_decomp
    (fun j => (service_instance_update none (some j)).2) hi
  obtain ⟨m, hm⟩ := siu_delete_trace i
  refine ⟨p, m, q, ?_⟩
  rw [hpq, hm]
  simp

theorem find_service_filter_self (reg : List Service) (n : String) :
    find_service (reg.filter (fun x => x.name != n)) n = none := by
  simp only [find_service, List.find?_eq_none]
  intro x hx
  have h2 := (List.mem_filter.1 hx).2
  simpa [bne] using h2

theorem del_all_eq_nil (todo : List Service) (reg : List Service)
    (h : ∀ x ∈ reg, ∃ s ∈ todo, x.name = s.name) :
    (del_all reg todo).1 = [] := by
  induction todo generalizing reg with
  | nil =>
      cases reg with
      | nil => rfl
      | cons a l =>
          obtain ⟨s, hs, -⟩ := h a (by simp)
          exact absurd hs (by simp)
  | cons s rest ih =>
      show (del_all (service_delete reg s).1 rest).1 = []
      apply ih
      intro x hx
      simp only [service_delete] at hx
      have hx1 := (List.mem_filter.1 hx).1
      have hx2 := (List.mem_filter.1 hx).2
      obtain ⟨t, ht, hname⟩ := h x hx1
      rcases List.mem_cons.1 ht with rfl | htr
      · exact absurd (by simpa [bne] using hx2) (by simp [hname])
      · exact ⟨t, htr, hname⟩

/-! ## C7 -/

/-- C7: `delete` with an unknown name returns NOT_FOUND and changes
nothing; with a matching name it deletes exactly that service, stopping
and freeing each of its instances, and a second delete of the same name
yields NOT_FOUND on the unchanged remainder; with no name it always
succeeds, empties the registry, and a subsequent `list` returns the
empty sequence. -/
theorem service_handle_delete_spec (reg : List Service) :
    (∀ n, find_service reg n = none →
        service_handle_delete reg { name := some n }
          = ((reg, UBUS_STATUS_NOT_FOUND), [])) ∧
    (∀ n s, find_service reg n = some s →
        (service_handle_delete reg { name := some n }).1.1
            = reg.filter (fun x => x.name != n) ∧
        (service_handle_delete reg { name := some n }).1.2 = 0 ∧
        (∀ i ∈ s.instances.nodes, ∃ p m q,
            (service_handle_delete reg { name := some n }).2
              = p ++ .stopCall i.name false :: m ++ .freeCall i.name :: q) ∧
        service_handle_delete
            (service_handle_delete reg { name := some n }).1.1
            { name := some n }
          = (((service_handle_delete reg { name := some n }).1.1,
              UBUS_STATUS_NOT_FOUND), [])) ∧
    ((service_handle_delete reg { name := none }).1.1 = [] ∧
     (service_handle_delete reg { name := none }).1.2 = 0 ∧
     service_handle_list (service_handle_delete reg { name := none }).1.1
        = []) := by
  refine ⟨?_, ?_, ?_⟩
  · intro n hn
    simp [service_handle_delete, hn]
  · intro n s hf
    have hsn : s.name = n := by
      have h2 := List.find?_some hf
      simpa using h2
    have hres : (service_handle_delete reg { name := some n }).1.1
        = reg.filter (fun x => x.name != n) := by
      simp [service_handle_delete, hf, service_delete, hsn]
    refine ⟨hres, by simp [service_handle_delete, hf], ?_, ?_⟩
    · intro i hi
      have htr : (service_handle_delete reg { name := some n }).2
          = ((s.instances.nodes.map
              (fun j => (service_instance_update none (some j)).2)).flatten) := by
        simp [service_handle_delete, hf, service_delete, vlist_flush_all_spec]
      rw [htr]
      exact delete_trace_shape hi
    · rw [hres]
      simp [service_handle_delete, find_service_filter_self]
  · refine ⟨?_, rfl, ?_⟩
    · exact del_all_eq_nil reg reg (fun x hx => ⟨x, hx, rfl⟩)
    · show service_handle_list (del_all reg reg).1 = []
      rw [del_all_eq_nil reg reg (fun x hx => ⟨x, hx, rfl⟩)]
      rfl

/-- C7 witness: a two-service registry; unknown name, known name, double
delete and full flush on concrete data. -/
theorem service_handle_delete_spec_witness :
    (service_handle_delete
        [{ name := "a", config := [],
           instances := { version := 1, keep_old := true,
                          nodes := [sampleRun] } },
         { name := "b", config := [],
           instances := { version := 1, keep_old := true, nodes := [] } }]
        { name := some "zzz" }
      = (([{ name := "a", config := [],
             instances := { version := 1, keep_old := true,
                            nodes := [sampleRun] } },
           { name := "b", config := [],
             instances := { version := 1, keep_old := true, nodes := [] } }],
          UBUS_STATUS_NOT_FOUND), [])) ∧
    ((service_handle_delete
        [{ name := "a", config := [],
           instances := { version := 1, keep_old := true,
                          nodes := [sampleRun] } },
         { name := "b", config := [],
           instances := { version := 1, keep_old := true, nodes := [] } }]
        { name := none }).1.1 = []) :=
  ⟨(service_handle_delete_spec _).1 "zzz" (by decide),
   (service_handle_delete_spec
      [{ name := "a", config := [],
         instances := { version := 1, keep_old := true,
                        nodes := [sampleRun] } },
       { name := "b", config := [],
         instances := { version := 1, keep_old := true, nodes := [] } }]).2.2.1⟩

/-! ## C10 -/

theorem update_instance_state (o n : Instance) :
    (update_instance o n).1.1 = { o with config := n.config } := by
  by_cases h : instance_config_changed o n <;>
    by_cases hp : o.proc_pending <;>
      simp [update_instance, stop_instance, h, hp]

theorem replace_node_names (l : List Instance) (key : String) (j : Instance)
    (hj : j.name = key) :
    (replace_node l key j).map (·.name) = l.map (·.name) := by
  simp only [replace_node, List.map_map]
  apply List.map_congr_left
  intro a _
  simp only [Function.comp]
  by_cases h : (a.name == key) = true
  · have ha : a.name = key := by simpa using h
    simp [h, hj, ha]
  · simp [h]

/-- C10: with `keep_old` set (as `service_alloc` configures), submitting
an instance whose name is already tracked keeps the original instance
object: only its vlist version and config pointer change, its restart
flag and process/timer handles are untouched, the set of tracked names is
unchanged (the new node is not inserted), and the newly allocated node is
freed. -/
theorem vlist_add_keep_old_spec (T : VlistTree) (node : Instance)
    (key : String) (old : Instance)
    (hk : T.keep_old = true)
    (hf : find_node T.nodes key = some old) :
    (vlist_add T node key).1.nodes
      = replace_node T.nodes key
          { old with node_version := T.version, config := node.config } ∧
    (vlist_add T node key).1.nodes.map (·.name) = T.nodes.map (·.name) ∧
    ({ old with node_version := T.version, config := node.config }).restart
        = old.restart ∧
    ({ old with node_version := T.version, config := node.config }).proc_pending
        = old.proc_pending ∧
    ({ old with node_version := T.version, config := node.config }).proc_pid
        = old.proc_pid ∧
    ({ old with node_version := T.version, config := node.config }).timer_pending
        = old.timer_pending ∧
    Action.freeCall key ∈ (vlist_add T node key).2 := by
  have hold : old.name = key := by
    have h2 := List.find?_some hf
    simpa using h2
  have hnodes : (vlist_add T node key).1.nodes = replace_node T.nodes key ({ old with node_version := T.version, config := node.config }) := by
    simp [vlist_add, hf, hk, service_instance_update, update_instance_state]
  have htr : Action.freeCall key ∈ (vlist_add T node key).2 := by
    simp [vlist_add, hf, hk, service_instance_update, free_instance]
  refine ⟨hnodes, ?_, rfl, rfl, rfl, rfl, htr⟩
  rw [hnodes]
  exact replace_node_names _ _ _ (by simp [hold])

/-- C10 witness: updating a tracked running instance under a fresh config
on concrete data. -/
theorem vlist_add_keep_old_spec_witness :
    (vlist_add
        { version := 3, keep_old := true, nodes := [sampleRun] }
        { name := "", node_version := 0, restart := false, config := [1, 2],
          proc_pending := false, proc_pid := 0, timer_pending := false }
        "main").1.nodes
      = replace_node [sampleRun] "main"
          { sampleRun with node_version := 3, config := [1, 2] } ∧
    Action.freeCall "main"
      ∈ (vlist_add
          { version := 3, keep_old := true, nodes := [sampleRun] }
          { name := "", node_version := 0, restart := false, config := [1, 2],
            proc_pending := false, proc_pid := 0, timer_pending := false }
          "main").2 :=
  ⟨(vlist_add_keep_old_spec
      { version := 3, keep_old := true, nodes := [sampleRun] }
      { name := "", node_version := 0, restart := false, config := [1, 2],
        proc_pending := false, proc_pid := 0, timer_pending := false }
      "main" sampleRun rfl (by decide)).1,
   (vlist_add_keep_old_spec
      { version := 3, keep_old := true, nodes := [sampleRun] }
      { name := "", node_version := 0, restart := false, config := [1, 2],
        proc_pending := false, proc_pid := 0, timer_pending := false }
      "main" sampleRun rfl (by decide)).2.2.2.2.2.2⟩

/-! ## C9: the restart flag is false in every reachable state -/

def all_restart_false (reg : List Service) : Prop :=
  ∀ s ∈ reg, ∀ i ∈ s.instances.nodes, i.restart = false

theorem vlist_add_nodes_none (T : VlistTree) (node : Instance) (key : String)
    (hf : find_node T.nodes key = none) :
    (vlist_add T node key).1.nodes
      = T.nodes ++ [{ node with name := key, node_version := T.version, restart := false }] := by
  simp [vlist_add, hf, service_instance_update, start_instance]

theorem vlist_add_nodes_keep (T : VlistTree) (node : Instance) (key : String)
    (old : Instance) (hf : find_node T.nodes key = some old)
    (hk : T.keep_old = true) :
    (vlist_add T node key).1.nodes
      = replace_node T.nodes key ({ old with node_version := T.version, config := node.config }) := by
  simp [vlist_add, hf, hk, service_instance_update, update_instance_state]

theorem vlist_add_nodes_nokeep (T : VlistTree) (node : Instance) (key : String)
    (old : Instance) (hf : find_node T.nodes key = some old)
    (hk : ¬ T.keep_old = true) :
    (vlist_add T node key).1.nodes
      = T.nodes.filter (fun i => i.name != key)
        ++ [{ node with name := key, node_version := T.version }] := by
  simp [vlist_add, hf, hk]

theorem vlist_add_restart_false (T : VlistTree) (node : Instance)
    (key : String) (hT : ∀ i ∈ T.nodes, i.restart = false)
    (hn : node.restart = false) :
    ∀ i ∈ (vlist_add T node key).1.nodes, i.restart = false := by
  intro i hi
  cases hf : find_node T.nodes key with
  | none =>
      rw [vlist_add_nodes_none T node key hf] at hi
      rcases List.mem_append.1 hi with h1 | h1
      · exact hT i h1
      · have h2 : i = { node with name := key, node_version := T.version, restart := false } := by
          simpa using h1
        rw [h2]
  | some old =>
      have hold : old ∈ T.nodes := List.mem_of_find?_eq_some hf
      by_cases hk : T.keep_old = true
      · rw [vlist_add_nodes_keep T node key old hf hk] at hi
        rcases List.mem_map.1 hi with ⟨j, hj, rfl⟩
        by_cases hjk : (j.name == key) = true
        · simpa [hjk] using hT old hold
        · simpa [hjk] using hT j hj
      · rw [vlist_add_nodes_nokeep T node key old hf hk] at hi
        rcases List.mem_append.1 hi with h1 | h1
        · exact hT i (List.mem_filter.1 h1).1
        · have h2 : i = { node with name := key, node_version := T.version } := by
            simpa using h1
          rw [h2]
          exact hn

theorem service_instance_add_restart_false (T : VlistTree) (attr : Attr)
    (hT : ∀ i ∈ T.nodes, i.restart = false) :
    ∀ i ∈ (service_instance_add T attr).1.nodes, i.restart = false := by
  by_cases ht : attr.isTable = true
  · intro i hi
    simp only [service_instance_add, ht, Bool.not_true, Bool.false_eq_true,
      if_false] at hi
    exact vlist_add_restart_false _ _ _ hT rfl i hi
  · intro i hi
    simp only [service_instance_add, Bool.not_eq_true'] at hi
    rw [if_pos (by simpa using ht)] at hi
    exact hT i hi

theorem add_all_restart_false (attrs : List Attr) (T : VlistTree)
    (hT : ∀ i ∈ T.nodes, i.restart = false) :
    ∀ i ∈ (add_all T attrs).1.nodes, i.restart = false := by
  induction attrs generalizing T with
  | nil => exact hT
  | cons a rest ih =>
      exact ih _ (service_instance_add_restart_false T a hT)

theorem vlist_flush_restart_false (T : VlistTree)
    (hT : ∀ i ∈ T.nodes, i.restart = false) :
    ∀ i ∈ (vlist_flush T).1.nodes, i.restart = false := by
  intro i hi
  simp only [vlist_flush] at hi
  exact hT i (List.mem_filter.1 hi).1

theorem service_update_restart_false (s : Service) (config : Blob)
    (nm : String) (ti : Option (List Attr))
    (h : ∀ i ∈ s.instances.nodes, i.restart = false) :
    ∀ i ∈ (service_update s config nm ti).1.instances.nodes,
      i.restart = false := by
  cases ti with
  | none => exact h
  | some attrs =>
      intro i hi
      simp only [service_update] at hi
      refine vlist_flush_restart_false _ ?_ i hi
      refine add_all_restart_false attrs _ ?_
      intro j hj
      simp only [vlist_update] at hj
      exact h j hj

theorem mem_avl_insert (reg : List Service) (s x : Service)
    (hx : x ∈ avl_insert reg s) : x = s ∨ x ∈ reg := by
  induction reg with
  | nil => simpa [avl_insert] using hx
  | cons a t ih =>
      simp only [avl_insert] at hx
      by_cases h : s.name < a.name
      · rw [if_pos h] at hx
        rcases List.mem_cons.1 hx with rfl | h2
        · exact Or.inl rfl
        · exact Or.inr h2
      · rw [if_neg h] at hx
        rcases List.mem_cons.1 hx with rfl | h2
        · exact Or.inr (List.mem_cons_self _ _)
        · rcases ih h2 with h3 | h3
          · exact Or.inl h3
          · exact Or.inr (List.mem_cons_of_mem _ h3)

theorem handle_set_restart_false (reg : List Service) (msg : SetMsg)
    (h : all_restart_false reg) :
    all_restart_false (service_handle_set reg msg).1.1 := by
  cases hm : msg.name with
  | none =>
      intro x hx
      simp only [service_handle_set, hm] at hx
      exact h x hx
  | some n =>
      cases hfind : find_service reg n with
      | some s =>
          intro x hx i hi
          simp only [service_handle_set, hm, hfind, replace_service] at hx
          rcases List.mem_map.1 hx with ⟨t, ht, rfl⟩
          by_cases h1 : (t.name == n) = true
          · rw [if_pos h1] at hi
            exact service_update_restart_false s msg.blob n msg.instances
              (h s (List.mem_of_find?_eq_some hfind)) i hi
          · rw [if_neg h1] at hi
            exact h t ht i hi
      | none =>
          intro x hx i hi
          simp only [service_handle_set, hm, hfind] at hx
          rcases mem_avl_insert _ _ _ hx with rfl | h2
          · exact service_update_restart_false (service_alloc n) msg.blob n
              msg.instances (by intro j hj; exact absurd hj (by simp [service_alloc])) i hi
          · exact h x h2 i hi

theorem del_all_subset (todo : List Service) (reg : List Service)
    (x : Service) (hx : x ∈ (del_all reg todo).1) : x ∈ reg := by
  induction todo generalizing reg with
  | nil => exact hx
  | cons s rest ih =>
      have h2 := ih (service_delete reg s).1 hx
      exact (List.mem_filter.1 h2).1

theorem handle_del_restart_false (reg : List Service) (msg : DelMsg)
    (h : all_restart_false reg) :
    all_restart_false (service_handle_delete reg msg).1.1 := by
  cases hm : msg.name with
  | none =>
      intro x hx
      simp only [service_handle_delete, hm] at hx
      exact h x (del_all_subset reg reg x hx)
  | some n =>
      cases hfind : find_service reg n with
      | none =>
          intro x hx
          simp only [service_handle_delete, hm, hfind] at hx
          exact h x hx
      | some s =>
          intro x hx
          simp only [service_handle_delete, hm, hfind, service_delete] at hx
          exact h x (List.mem_filter.1 hx).1

theorem deliver_exit_restart_false (i : Instance) (ret : Int)
    (h : i.restart = false) : (deliver_exit i ret).1.restart = false := by
  by_cases hp : i.proc_pending = true <;>
    simp [deliver_exit, instance_exit, start_instance, hp, h]

theorem deliver_timeout_restart_false (i : Instance)
    (h : i.restart = false) : (deliver_timeout i).1.restart = false := by
  by_cases ht : i.timer_pending = true <;>
    simp [deliver_timeout, instance_timeout, instance_exit, start_instance,
      ht, h]

theorem set_inst_restart_false (reg : List Service) (sn inm : String)
    (j : Instance) (hreg : all_restart_false reg) (hj : j.restart = false) :
    all_restart_false (set_inst reg sn inm j) := by
  intro s hs i hi
  simp only [set_inst] at hs
  rcases List.mem_map.1 hs with ⟨t, ht, rfl⟩
  by_cases h1 : (t.name == sn) = true
  · rw [if_pos h1] at hi
    simp only at hi
    rcases List.mem_map.1 hi with ⟨u, hu, rfl⟩
    by_cases h2 : (u.name == inm) = true
    · rw [if_pos h2]; exact hj
    · rw [if_neg h2]; exact hreg t ht u hu
  · rw [if_neg h1] at hi
    exact hreg t ht i hi

theorem reach_all_restart_false (reg : List Service) (h : Reach reg) :
    all_restart_false reg := by
  induction h with
  | init => intro s hs; exact absurd hs (by simp)
  | rset reg msg _ ih => exact handle_set_restart_false reg msg ih
  | rdel reg msg _ ih => exact handle_del_restart_false reg msg ih
  | rexit reg s i ret _ hs hi ih =>
      exact set_inst_restart_false reg s.name i.name _ ih
        (deliver_exit_restart_false i ret (ih s hs i hi))
  | rtimeout reg s i _ hs hi ih =>
      exact set_inst_restart_false reg s.name i.name _ ih
        (deliver_timeout_restart_false i (ih s hs i hi))

/-- C9: in every reachable registry state, every tracked instance's
restart flag is false — it is zero-initialized at allocation and the only
assignment to it sets it to false — so the restart branch of the exit
handler is never taken: delivering a process exit to any tracked instance
emits no start call. -/
theorem reach_restart_false (reg : List Service) (h : Reach reg) :
    ∀ s ∈ reg, ∀ i ∈ s.instances.nodes,
      i.restart = false ∧
      ∀ ret : Int, ∀ a ∈ (deliver_exit i ret).2, ∀ nm, a ≠ .startCall nm := by
  intro s hs i hi
  have hf := reach_all_restart_false reg h s hs i hi
  refine ⟨hf, ?_⟩
  intro ret a ha nm
  by_cases hp : i.proc_pending = true <;>
    simp [deliver_exit, instance_exit, hp, hf] at ha
  subst ha
  simp

def msgW : SetMsg :=
  { name := some "net", script := none,
    instances := some [{ name := "main", isTable := true, blob := [1] }],
    blob := [0] }

def regW : List Service := (service_handle_set [] msgW).1.1

def instW : Instance :=
  { name := "main", node_version := 2, restart := false, config := [1],
    proc_pending := false, proc_pid := 0, timer_pending := false }

def serviceW : Service :=
  { name := "net", config := [0],
    instances := { version := 2, keep_old := true, nodes := [instW] } }

/-- C9 witness: the instance created by a concrete `set` on the empty
registry has its restart flag cleared, and exit delivery to it emits no
start call. -/
theorem reach_restart_false_witness :
    instW.restart = false ∧
    ∀ ret : Int, ∀ a ∈ (deliver_exit instW ret).2, ∀ nm,
      a ≠ .startCall nm :=
  reach_restart_false regW (Reach.rset [] msgW Reach.init)
    serviceW (show serviceW ∈ [serviceW] from List.mem_cons_self _ _)
    instW (show instW ∈ [instW] from List.mem_cons_self _ _)

/-! ## C1: reconcile diff correctness -/

def inames (l : List Instance) : List String := l.map (·.name)

/-- The effect of one reconcile pass on an already-tracked node: if some
submitted attribute carries its name, the node keeps its identity but its
vlist version is bumped and its config swapped; otherwise it is left as
is (and will be flushed). -/
def reconcile_upd (v : Int) (attrs : List Attr) (i : Instance) : Instance :=
  match attrs.find? (fun a => a.name == i.name) with
  | some a => { i with node_version := v, config := a.blob }
  | none => i

/-- The freshly created node for a submitted attribute whose name was not
tracked. -/
def fresh_inst (v : Int) (a : Attr) : Instance :=
  { name := a.name, node_version := v, restart := false, config := a.blob,
    proc_pending := false, proc_pid := 0, timer_pending := false }

theorem reconcile_upd_nil (v : Int) (i : Instance) :
    reconcile_upd v [] i = i := rfl

theorem reconcile_upd_cons_eq (v : Int) (a : Attr) (rest : List Attr)
    (i : Instance) (h : a.name = i.name) :
    reconcile_upd v (a :: rest) i
      = { i with node_version := v, config := a.blob } := by
  simp [reconcile_upd, List.find?_cons, h]

theorem reconcile_upd_cons_ne (v : Int) (a : Attr) (rest : List Attr)
    (i : Instance) (h : a.name ≠ i.name) :
    reconcile_upd v (a :: rest) i = reconcile_upd v rest i := by
  simp [reconcile_upd, List.find?_cons, h]

theorem reconcile_upd_no_match (v : Int) (attrs : List Attr) (i : Instance)
    (h : ∀ a ∈ attrs, a.name ≠ i.name) : reconcile_upd v attrs i = i := by
  have hf : attrs.find? (fun a => a.name == i.name) = none := by
    rw [List.find?_eq_none]
    intro a ha
    simpa using h a ha
  simp [reconcile_upd, hf]

theorem mem_inames {i : Instance} {l : List Instance} (h : i ∈ l) :
    i.name ∈ inames l := List.mem_map_of_mem _ h

theorem find_node_eq_none_iff (l : List Instance) (key : String) :
    find_node l key = none ↔ ∀ i ∈ l, i.name ≠ key := by
  simp [find_node, List.find?_eq_none]

theorem find_node_of_mem {l : List Instance} {key : String}
    (h : ∃ i ∈ l, i.name = key) :
    ∃ old, find_node l key = some old ∧ old.name = key ∧ old ∈ l := by
  cases hf : find_node l key with
  | none =>
      rw [find_node_eq_none_iff] at hf
      obtain ⟨i, hi, hn⟩ := h
      exact absurd hn (hf i hi)
  | some old =>
      refine ⟨old, rfl, ?_, List.mem_of_find?_eq_some hf⟩
      simpa using List.find?_some hf

theorem nodup_find_eq {l : List Instance} (hnd : (inames l).Nodup)
    {j old : Instance} (hj : j ∈ l) (hf : find_node l j.name = some old) :
    j = old := by
  induction l with
  | nil => cases hj
  | cons b t ih =>
      simp only [inames, List.map_cons, List.nodup_cons] at hnd
      by_cases hb : (b.name == j.name) = true
      · have hbn : b.name = j.name := by simpa using hb
        have hold : b = old := by
          simpa [find_node, List.find?_cons, hb] using hf
        rcases List.mem_cons.1 hj with rfl | hjt
        · exact hold
        · exact absurd (hbn ▸ mem_inames hjt) hnd.1
      · have hfx : find_node t j.name = some old := by
          simpa [find_node, List.find?_cons, hb] using hf
        rcases List.mem_cons.1 hj with rfl | hjt
        · exact absurd (by simp) hb
        · exact ih hnd.2 hjt hfx

theorem vlist_add_tree_fields (T : VlistTree) (node : Instance)
    (key : String) :
    (vlist_add T node key).1.version = T.version ∧
    (vlist_add T node key).1.keep_old = T.keep_old := by
  cases hf : find_node T.nodes key
  · simp [vlist_add, hf]
  · by_cases hk : T.keep_old = true <;> simp [vlist_add, hf, hk]

theorem service_instance_add_tree_fields (T : VlistTree) (a : Attr) :
    (service_instance_add T a).1.version = T.version ∧
    (service_instance_add T a).1.keep_old = T.keep_old := by
  by_cases ht : a.isTable = true
  · simp only [service_instance_add, ht, Bool.not_true, Bool.false_eq_true,
      if_false]
    exact vlist_add_tree_fields _ _ _
  · have h2 : a.isTable = false := by simpa using ht
    simp [service_instance_add, h2]

theorem add_all_tree_fields (attrs : List Attr) (T : VlistTree) :
    (add_all T attrs).1.version = T.version ∧
    (add_all T attrs).1.keep_old = T.keep_old := by
  induction attrs generalizing T with
  | nil => exact ⟨rfl, rfl⟩
  | cons a rest ih =>
      have h1 := service_instance_add_tree_fields T a
      have h2 := ih (service_instance_add T a).1
      exact ⟨h2.1.trans h1.1, h2.2.trans h1.2⟩

theorem add_all_append (xs ys : List Attr) (T : VlistTree) :
    add_all T (xs ++ ys)
      = ((add_all (add_all T xs).1 ys).1,
         (add_all T xs).2 ++ (add_all (add_all T xs).1 ys).2) := by
  induction xs generalizing T with
  | nil => simp [add_all]
  | cons a rest ih =>
      have h1 : add_all T ((a :: rest) ++ ys)
          = ((add_all (service_instance_add T a).1 (rest ++ ys)).1,
             (service_instance_add T a).2
               ++ (add_all (service_instance_add T a).1 (rest ++ ys)).2) := rfl
      rw [h1, ih]
      show _ = ((add_all (add_all (service_instance_add T a).1 rest).1 ys).1,
          ((service_instance_add T a).2
              ++ (add_all (service_instance_add T a).1 rest).2)
            ++ (add_all (add_all (service_instance_add T a).1 rest).1 ys).2)
      rw [List.append_assoc]

theorem vlist_add_trace_none (T : VlistTree) (node : Instance)
    (key : String) (hf : find_node T.nodes key = none) :
    (vlist_add T node key).2 = [.startCall key] := by
  simp [vlist_add, hf, service_instance_update, start_instance]

theorem update_instance_trace_head (o n : Instance) :
    ∃ ts, (update_instance o n).2 = .updateCall o.name :: ts := by
  by_cases h : instance_config_changed o n
  · exact ⟨(stop_instance { o with config := n.config } true).2,
      by simp [update_instance, h]⟩
  · exact ⟨[], by simp [update_instance, h]⟩

theorem vlist_add_trace_keep (T : VlistTree) (node : Instance)
    (key : String) (old : Instance) (hf : find_node T.nodes key = some old)
    (hk : T.keep_old = true) :
    Action.updateCall key ∈ (vlist_add T node key).2 := by
  have hold : old.name = key := by simpa using List.find?_some hf
  obtain ⟨ts, hts⟩ := update_instance_trace_head
    ({ old with node_version := T.version })
    ({ node with name := key, node_version := T.version })
  have h2 : (vlist_add T node key).2
      = (update_instance ({ old with node_version := T.version }) ({ node with name := key, node_version := T.version })).2 ++ [.freeCall key] := by
    simp [vlist_add, hf, hk, service_instance_update, free_instance]
  rw [h2, hts]
  simp [hold]

/-- The reconcile fold: starting from a `keep_old` tree with no duplicate
tracked names and feeding it a duplicate-free list of table attributes,
the resulting node list consists of the old nodes (version-bumped and
config-swapped where a submitted attribute matches their name) followed
by freshly started nodes for the attributes whose names were untracked. -/
theorem add_all_nodes_spec (attrs : List Attr) :
    ∀ T : VlistTree, T.keep_old = true → (inames T.nodes).Nodup →
    (attrs.map (·.name)).Nodup → (∀ a ∈ attrs, a.isTable = true) →
    (add_all T attrs).1.nodes
      = T.nodes.map (reconcile_upd T.version attrs)
        ++ (attrs.filter
              (fun a => decide (a.name ∉ inames T.nodes))).map
            (fresh_inst T.version) := by
  induction attrs with
  | nil =>
      intro T _ _ _ _
      have h1 : T.nodes.map (reconcile_upd T.version []) = T.nodes := by
        have h2 : reconcile_upd T.version [] = fun i => i :=
          funext (reconcile_upd_nil T.version)
        rw [h2]
        exact List.map_id' T.nodes
      simp [add_all, h1]
  | cons a rest ih =>
      intro T hk hnd hand htab
      have htaba : a.isTable = true := htab a (List.mem_cons_self _ _)
      have htabr : ∀ b ∈ rest, b.isTable = true :=
        fun b hb => htab b (List.mem_cons_of_mem _ hb)
      rw [List.map_cons, List.nodup_cons] at hand
      have hanot : a.name ∉ rest.map (·.name) := hand.1
      have handr : (rest.map (·.name)).Nodup := hand.2
      have hfields := service_instance_add_tree_fields T a
      have hgoal : (add_all T (a :: rest)).1
          = (add_all (service_instance_add T a).1 rest).1 := rfl
      cases hf : find_node T.nodes a.name with
      | some old =>
          have hold_mem : old ∈ T.nodes := List.mem_of_find?_eq_some hf
          have hold_name : old.name = a.name := by
            simpa using List.find?_some hf
          have hT1 : (service_instance_add T a).1.nodes
              = replace_node T.nodes a.name ({ old with node_version := T.version, config := a.blob }) := by
            simp only [service_instance_add, htaba, Bool.not_true,
              Bool.false_eq_true, if_false]
            exact vlist_add_nodes_keep T _ a.name old hf hk
          have hnames1 : inames (service_instance_add T a).1.nodes
              = inames T.nodes := by
            rw [hT1]
            exact replace_node_names _ _ _ (by simp [hold_name])
          have hrec := ih (service_instance_add T a).1
            (by rw [hfields.2]; exact hk)
            (by rw [hnames1]; exact hnd) handr htabr
          rw [hgoal, hrec, hfields.1, hnames1, hT1]
          have hE1 : (replace_node T.nodes a.name ({ old with node_version := T.version, config := a.blob })).map (reconcile_upd T.version rest)
              = T.nodes.map (reconcile_upd T.version (a :: rest)) := by
            simp only [replace_node, List.map_map]
            apply List.map_congr_left
            intro j hj
            simp only [Function.comp]
            by_cases hjk : (j.name == a.name) = true
            · have hjn : j.name = a.name := by simpa using hjk
              have hjold : j = old :=
                nodup_find_eq hnd hj (by rw [hjn]; exact hf)
              rw [if_pos hjk, hjold]
              rw [reconcile_upd_no_match T.version rest _
                (by intro b hb
                    intro hbn
                    exact hanot (by
                      have : b.name = a.name := by
                        simpa [hold_name] using hbn
                      exact this ▸ List.mem_map_of_mem _ hb))]
              rw [reconcile_upd_cons_eq T.version a rest old hold_name.symm]
            · have hjn : j.name ≠ a.name := by simpa using hjk
              rw [if_neg (by simpa using hjn)]
              rw [reconcile_upd_cons_ne T.version a rest j
                (fun hh => hjn hh.symm)]
          have hE2 : (a :: rest).filter
                (fun b => decide (b.name ∉ inames T.nodes))
              = rest.filter (fun b => decide (b.name ∉ inames T.nodes)) := by
            rw [List.filter_cons]
            have hmem : a.name ∈ inames T.nodes :=
              hold_name ▸ mem_inames hold_mem
            simp [hmem]
          rw [hE1, hE2]
      | none =>
          have hnone : ∀ i ∈ T.nodes, i.name ≠ a.name :=
            (find_node_eq_none_iff _ _).1 hf
          have hanotT : a.name ∉ inames T.nodes := by
            intro hmem
            rcases List.mem_map.1 hmem with ⟨i, hi, hni⟩
            exact hnone i hi hni
          have hT1 : (service_instance_add T a).1.nodes
              = T.nodes ++ [fresh_inst T.version a] := by
            simp only [service_instance_add, htaba, Bool.not_true,
              Bool.false_eq_true, if_false]
            rw [vlist_add_nodes_none T _ a.name hf]
            rfl
          have hnames1 : inames (service_instance_add T a).1.nodes
              = inames T.nodes ++ [a.name] := by
            rw [hT1]
            simp [inames, fresh_inst]
          have hnd1 : (inames (service_instance_add T a).1.nodes).Nodup := by
            rw [hnames1]
            rw [List.nodup_append]
            refine ⟨hnd, by simp, ?_⟩
            intro x hx
            rcases List.mem_map.1 hx with ⟨i, hi, rfl⟩
            simp [hnone i hi]
          have hrec := ih (service_instance_add T a).1
            (by rw [hfields.2]; exact hk) hnd1 handr htabr
          rw [hgoal, hrec, hfields.1, hnames1, hT1]
          have hE1 : (T.nodes ++ [fresh_inst T.version a]).map
                (reconcile_upd T.version rest)
              = T.nodes.map (reconcile_upd T.version (a :: rest))
                ++ [fresh_inst T.version a] := by
            rw [List.map_append]
            congr 1
            · apply List.map_congr_left
              intro j hj
              exact (reconcile_upd_cons_ne T.version a rest j
                (hnone j hj).symm).symm
            · simp only [List.map_cons, List.map_nil]
              rw [reconcile_upd_no_match T.version rest _
                (by intro b hb hbn
                    exact hanot (by
                      have h3 : b.name = a.name := by
                        simpa [fresh_inst] using hbn
                      exact h3 ▸ List.mem_map_of_mem _ hb))]
          have hE2 : rest.filter
                (fun b => decide (b.name ∉ inames T.nodes ++ [a.name]))
              = rest.filter (fun b => decide (b.name ∉ inames T.nodes)) := by
            apply List.filter_congr
            intro b hb
            have hbn : b.name ≠ a.name := by
              intro hh
              exact hanot (hh ▸ List.mem_map_of_mem _ hb)
            simp [hbn]
          have hE3 : (a :: rest).filter
                (fun b => decide (b.name ∉ inames T.nodes))
              = a :: rest.filter
                  (fun b => decide (b.name ∉ inames T.nodes)) := by
            rw [List.filter_cons]
            simp [hanotT]
          rw [hE1, hE2, hE3]
          simp

theorem reconcile_upd_name (v : Int) (attrs : List Attr) (i : Instance) :
    (reconcile_upd v attrs i).name = i.name := by
  cases hf : attrs.find? (fun a => a.name == i.name) <;>
    simp [reconcile_upd, hf]

theorem service_update_some_unfold (s : Service) (config : Blob)
    (nm : String) (attrs : List Attr) :
    service_update s config nm (some attrs)
      = ({ s with name := nm, config := config, instances := (vlist_flush (add_all (vlist_update s.instances) attrs).1).1 },
         (add_all (vlist_update s.instances) attrs).2
           ++ (vlist_flush (add_all (vlist_update s.instances) attrs).1).2) :=
  rfl

/-- C1: reconciling a tracked instance set A against a submitted set B
(`service_update` over the `instances` table followed by `vlist_flush`)
leaves the tracked name set exactly equal to B's names; every tracked
instance whose name is absent from B receives a stop call with
restart=false followed by its free; every submitted name absent from A
receives a start call; every submitted name present in A receives an
update call. -/
theorem service_update_reconcile_spec
    (s : Service) (config : Blob) (nm : String) (attrs : List Attr)
    (hko : s.instances.keep_old = true)
    (hv0 : 0 ≤ s.instances.version)
    (hver : ∀ i ∈ s.instances.nodes, i.node_version = s.instances.version)
    (hndA : (inames s.instances.nodes).Nodup)
    (hndB : (attrs.map (·.name)).Nodup)
    (htab : ∀ a ∈ attrs, a.isTable = true) :
    (∀ n : String,
        (∃ i ∈ (service_update s config nm (some attrs)).1.instances.nodes,
            i.name = n)
          ↔ ∃ a ∈ attrs, a.name = n) ∧
    (∀ i ∈ s.instances.nodes, (∀ a ∈ attrs, a.name ≠ i.name) →
        ∃ p m q, (service_update s config nm (some attrs)).2
          = p ++ .stopCall i.name false :: m ++ .freeCall i.name :: q) ∧
    (∀ a ∈ attrs, (∀ i ∈ s.instances.nodes, i.name ≠ a.name) →
        .startCall a.name ∈ (service_update s config nm (some attrs)).2) ∧
    (∀ a ∈ attrs, (∃ i ∈ s.instances.nodes, i.name = a.name) →
        .updateCall a.name ∈ (service_update s config nm (some attrs)).2) := by
  have hP1 : (add_all (vlist_update s.instances) attrs).1.nodes
      = s.instances.nodes.map
          (reconcile_upd (s.instances.version + 1) attrs)
        ++ (attrs.filter
              (fun a => decide (a.name ∉ inames s.instances.nodes))).map
            (fresh_inst (s.instances.version + 1)) :=
    add_all_nodes_spec attrs (vlist_update s.instances) hko hndA hndB htab
  have hv1 : (add_all (vlist_update s.instances) attrs).1.version
      = s.instances.version + 1 :=
    (add_all_tree_fields attrs (vlist_update s.instances)).1
  have hfinal : (service_update s config nm (some attrs)).1.instances.nodes
      = (add_all (vlist_update s.instances) attrs).1.nodes.filter
          (fun i => vlist_keep (s.instances.version + 1) i.node_version) := by
    rw [service_update_some_unfold]
    show ((vlist_flush (add_all (vlist_update s.instances) attrs).1).1).nodes
        = _
    simp only [vlist_flush]
    simp only [hv1]
  have htr : (service_update s config nm (some attrs)).2
      = (add_all (vlist_update s.instances) attrs).2
        ++ (vlist_flush (add_all (vlist_update s.instances) attrs).1).2 := by
    rw [service_update_some_unfold]
  have hflush_tr : (vlist_flush (add_all (vlist_update s.instances) attrs).1).2
      = (((add_all (vlist_update s.instances) attrs).1.nodes.filter
            (fun i =>
              !(vlist_keep (s.instances.version + 1) i.node_version))).map
          (fun j => (service_instance_update none (some j)).2)).flatten := by
    simp only [vlist_flush]
    simp only [hv1]
  have hkeep_new : vlist_keep (s.instances.version + 1)
      (s.instances.version + 1) = true := by
    simp only [vlist_keep]
    have h1 : (s.instances.version + 1 == s.instances.version + 1) = true :=
      by simp
    have h2 : (s.instances.version + 1 == (-1 : Int)) = false := by
      simp only [beq_eq_false_iff_ne, ne_eq]
      omega
    rw [h1, h2]
    rfl
  have hkeep_old : vlist_keep (s.instances.version + 1)
      s.instances.version = false := by
    simp only [vlist_keep]
    have h1 : (s.instances.version == s.instances.version + 1) = false := by
      simp only [beq_eq_false_iff_ne, ne_eq]
      omega
    have h2 : (s.instances.version == (-1 : Int)) = false := by
      simp only [beq_eq_false_iff_ne, ne_eq]
      omega
    rw [h1, h2]
    rfl
  refine ⟨?_, ?_, ?_, ?_⟩
  · -- tracked name set after reconcile = submitted name set
    intro n
    constructor
    · rintro ⟨i, hi, rfl⟩
      rw [hfinal] at hi
      have hi1 := (List.mem_filter.1 hi).1
      have hikeep := (List.mem_filter.1 hi).2
      rw [hP1] at hi1
      rcases List.mem_append.1 hi1 with h1 | h1
      · rcases List.mem_map.1 h1 with ⟨j, hjA, rfl⟩
        cases hfa : attrs.find? (fun b => b.name == j.name) with
        | none =>
            exfalso
            have hrecj : reconcile_upd (s.instances.version + 1) attrs j
                = j := by
              simp [reconcile_upd, hfa]
            rw [hrecj, hver j hjA, hkeep_old] at hikeep
            exact absurd hikeep (by simp)
        | some b =>
            have hbmem : b ∈ attrs := List.mem_of_find?_eq_some hfa
            have hbn : b.name = j.name := by
              simpa using List.find?_some hfa
            exact ⟨b, hbmem, by rw [hbn, reconcile_upd_name]⟩
      · rcases List.mem_map.1 h1 with ⟨b, hbf, rfl⟩
        exact ⟨b, (List.mem_filter.1 hbf).1, rfl⟩
    · rintro ⟨a, ha, rfl⟩
      by_cases hmem : ∃ j ∈ s.instances.nodes, j.name = a.name
      · obtain ⟨j, hjA, hjn⟩ := hmem
        have hsome : ∃ b, attrs.find? (fun c => c.name == j.name)
            = some b := by
          cases hfa : attrs.find? (fun c => c.name == j.name) with
          | none =>
              exfalso
              rw [List.find?_eq_none] at hfa
              exact (by simpa [hjn] using hfa a ha)
          | some b => exact ⟨b, rfl⟩
        obtain ⟨b, hfa⟩ := hsome
        refine ⟨reconcile_upd (s.instances.version + 1) attrs j, ?_, ?_⟩
        · rw [hfinal]
          apply List.mem_filter.2
          refine ⟨?_, ?_⟩
          · rw [hP1]
            exact List.mem_append_left _ (List.mem_map_of_mem _ hjA)
          · have h2 : (reconcile_upd (s.instances.version + 1) attrs
                j).node_version = s.instances.version + 1 := by
              simp [reconcile_upd, hfa]
            show vlist_keep (s.instances.version + 1)
                (reconcile_upd (s.instances.version + 1) attrs
                  j).node_version = true
            rw [h2, hkeep_new]
        · rw [reconcile_upd_name]
          exact hjn
      · push_neg at hmem
        have hnotin : a.name ∉ inames s.instances.nodes := by
          intro hc
          rcases List.mem_map.1 hc with ⟨j, hj, hjn⟩
          exact hmem j hj hjn
        refine ⟨fresh_inst (s.instances.version + 1) a, ?_, rfl⟩
        rw [hfinal]
        apply List.mem_filter.2
        refine ⟨?_, ?_⟩
        · rw [hP1]
          apply List.mem_append_right
          apply List.mem_map_of_mem
          apply List.mem_filter.2
          exact ⟨ha, by simp [hnotin]⟩
        · show vlist_keep (s.instances.version + 1)
              (fresh_inst (s.instances.version + 1) a).node_version = true
          exact hkeep_new
  · -- removed names: stop(restart=false) then free
    intro i hiA hno
    have hrec : reconcile_upd (s.instances.version + 1) attrs i = i :=
      reconcile_upd_no_match _ _ _ hno
    have hmem1 : i ∈ (add_all (vlist_update s.instances) attrs).1.nodes := by
      rw [hP1]
      apply List.mem_append_left
      have h2 := List.mem_map_of_mem
        (reconcile_upd (s.instances.version + 1) attrs) hiA
      rw [hrec] at h2
      exact h2
    have hstale : i ∈ (add_all (vlist_update s.instances) attrs).1.nodes.filter
        (fun j => !(vlist_keep (s.instances.version + 1) j.node_version)) := by
      apply List.mem_filter.2
      refine ⟨hmem1, ?_⟩
      show (!(vlist_keep (s.instances.version + 1) i.node_version)) = true
      rw [hver i hiA, hkeep_old]
      rfl
    obtain ⟨p, m, q, hdec⟩ := delete_trace_shape hstale
    refine ⟨(add_all (vlist_update s.instances) attrs).2 ++ p, m, q, ?_⟩
    rw [htr, hflush_tr, hdec]
    simp [List.append_assoc]
  · -- added names: start
    intro a ha hnew
    obtain ⟨xs, ys, rfl⟩ := List.append_of_mem ha
    have hnd_split := hndB
    rw [List.map_append, List.nodup_append] at hnd_split
    obtain ⟨hndxs, hndy, hdisj⟩ := hnd_split
    have haxs : a.name ∉ xs.map (·.name) := by
      intro hc
      exact hdisj hc (by simp)
    have htabxs : ∀ b ∈ xs, b.isTable = true :=
      fun b hb => htab b (by simp [hb])
    have htaba : a.isTable = true := htab a (by simp)
    have hTp := add_all_nodes_spec xs (vlist_update s.instances) hko hndA
      hndxs htabxs
    have hfindTp : find_node
        (add_all (vlist_update s.instances) xs).1.nodes a.name = none := by
      rw [find_node_eq_none_iff]
      intro i hi
      rw [hTp] at hi
      rcases List.mem_append.1 hi with h1 | h1
      · rcases List.mem_map.1 h1 with ⟨j, hjA, rfl⟩
        rw [reconcile_upd_name]
        exact hnew j hjA
      · rcases List.mem_map.1 h1 with ⟨b, hbf, rfl⟩
        have hbxs : b ∈ xs := (List.mem_filter.1 hbf).1
        show (fresh_inst _ b).name ≠ a.name
        intro hc
        exact haxs (hc ▸ List.mem_map_of_mem _ hbxs)
    have hstep : (service_instance_add
        (add_all (vlist_update s.instances) xs).1 a).2
        = [.startCall a.name] := by
      simp only [service_instance_add, htaba, Bool.not_true,
        Bool.false_eq_true, if_false]
      exact vlist_add_trace_none _ _ _ hfindTp
    have hr12 : (add_all (vlist_update s.instances) (xs ++ a :: ys)).2
        = (add_all (vlist_update s.instances) xs).2
          ++ ((service_instance_add
                (add_all (vlist_update s.instances) xs).1 a).2
              ++ (add_all (service_instance_add
                    (add_all (vlist_update s.instances) xs).1 a).1 ys).2) := by
      rw [add_all_append]
      rfl
    rw [htr, hr12]
    apply List.mem_append_left
    apply List.mem_append_right
    apply List.mem_append_left
    rw [hstep]
    simp
  · -- kept names: update
    intro a ha hex
    obtain ⟨xs, ys, rfl⟩ := List.append_of_mem ha
    have hnd_split := hndB
    rw [List.map_append, List.nodup_append] at hnd_split
    obtain ⟨hndxs, hndy, hdisj⟩ := hnd_split
    have htabxs : ∀ b ∈ xs, b.isTable = true :=
      fun b hb => htab b (by simp [hb])
    have htaba : a.isTable = true := htab a (by simp)
    obtain ⟨j, hjA, hjn⟩ := hex
    have hTp := add_all_nodes_spec xs (vlist_update s.instances) hko hndA
      hndxs htabxs
    have hTpf := add_all_tree_fields xs (vlist_update s.instances)
    have hmemTp : ∃ i ∈ (add_all (vlist_update s.instances) xs).1.nodes,
        i.name = a.name := by
      refine ⟨reconcile_upd (s.instances.version + 1) xs j, ?_, ?_⟩
      · rw [hTp]
        exact List.mem_append_left _ (List.mem_map_of_mem _ hjA)
      · rw [reconcile_upd_name]
        exact hjn
    obtain ⟨old2, hfind2, -, -⟩ := find_node_of_mem hmemTp
    have hkTp : (add_all (vlist_update s.instances) xs).1.keep_old = true := by
      rw [hTpf.2]
      exact hko
    have hstep : Action.updateCall a.name ∈ (service_instance_add
        (add_all (vlist_update s.instances) xs).1 a).2 := by
      simp only [service_instance_add, htaba, Bool.not_true,
        Bool.false_eq_true, if_false]
      exact vlist_add_trace_keep _ _ _ old2 hfind2 hkTp
    have hr12 : (add_all (vlist_update s.instances) (xs ++ a :: ys)).2
        = (add_all (vlist_update s.instances) xs).2
          ++ ((service_instance_add
                (add_all (vlist_update s.instances) xs).1 a).2
              ++ (add_all (service_instance_add
                    (add_all (vlist_update s.instances) xs).1 a).1 ys).2) := by
      rw [add_all_append]
      rfl
    rw [htr, hr12]
    apply List.mem_append_left
    apply List.mem_append_right
    apply List.mem_append_left
    exact hstep

def iKeepW : Instance :=
  { name := "keep", node_version := 5, restart := false, config := [1],
    proc_pending := true, proc_pid := 11, timer_pending := false }

def iGoneW : Instance :=
  { name := "gone", node_version := 5, restart := false, config := [2],
    proc_pending := false, proc_pid := 0, timer_pending := false }

def svcAW : Service :=
  { name := "net", config := [9],
    instances := { version := 5, keep_old := true,
                   nodes := [iKeepW, iGoneW] } }

def attrsW : List Attr :=
  [{ name := "keep", isTable := true, blob := [3] },
   { name := "new", isTable := true, blob := [4] }]

/-- C1 witness: a service tracking instances "keep" and "gone" is
reconciled against the submitted set ("keep", "new") on concrete data. -/
theorem service_update_reconcile_spec_witness :
    (∀ n : String,
        (∃ i ∈ (service_update svcAW [7] "net" (some attrsW)).1.instances.nodes,
            i.name = n)
          ↔ ∃ a ∈ attrsW, a.name = n) ∧
    (∀ i ∈ svcAW.instances.nodes, (∀ a ∈ attrsW, a.name ≠ i.name) →
        ∃ p m q, (service_update svcAW [7] "net" (some attrsW)).2
          = p ++ .stopCall i.name false :: m ++ .freeCall i.name :: q) ∧
    (∀ a ∈ attrsW, (∀ i ∈ svcAW.instances.nodes, i.name ≠ a.name) →
        .startCall a.name ∈ (service_update svcAW [7] "net" (some attrsW)).2) ∧
    (∀ a ∈ attrsW, (∃ i ∈ svcAW.instances.nodes, i.name = a.name) →
        .updateCall a.name
          ∈ (service_update svcAW [7] "net" (some attrsW)).2) :=
  service_update_reconcile_spec svcAW [7] "net" attrsW rfl (by decide)
    (by decide) (by decide) (by decide) (by decide)

end Procd
